import Mathlib

/-!
Verification of the PST-to-Markdown converter (pst_to_markdown.py).

Strings are modelled as `List Char`; Python exceptions raised by the external
COM automation interface are modelled with `Except (List Char) α` (the error
message as a list of characters).  Every definition below is a shallow
embedding of the corresponding Python function, keeping the source's names.
-/

/-- Matches the character class of `pst_to_markdown.py` line 40,
`r'[<>:"/\\|?*\x00-\x1f]'`: the nine punctuation characters plus the
control range U+0000 to U+001F. -/
def isInvalidChar (c : Char) : Bool :=
  c = '<' || c = '>' || c = ':' || c = '\"' || c = '/' || c = '\\' ||
  c = '|' || c = '?' || c = '*' || c.toNat ≤ 31

/-- Line 41: `re.sub(invalid_chars, '_', name)` replaces every invalid
character with an underscore. -/
def replaceInvalid (s : List Char) : List Char :=
  s.map fun c => if isInvalidChar c then '_' else c

/-- Line 42: `re.sub(r'_+', '_', sanitized)` collapses every maximal run of
underscores to a single underscore (we keep the first of each run). -/
def collapseUnderscores : List Char → List Char
  | [] => []
  | [c] => [c]
  | c1 :: c2 :: rest =>
    if c1 = '_' && c2 = '_' then collapseUnderscores (c2 :: rest)
    else c1 :: collapseUnderscores (c2 :: rest)

/-- The character set of Python `strip('. _')` on line 43. -/
def isStripSet (c : Char) : Bool :=
  c = '.' || c = ' ' || c = '_'

/-- Python `rstrip('. _')` (line 45). -/
def rstripSet (s : List Char) : List Char :=
  (s.reverse.dropWhile isStripSet).reverse

/-- Python `strip('. _')` (line 43): strip the set from both ends. -/
def stripSet (s : List Char) : List Char :=
  rstripSet (s.dropWhile isStripSet)

/-- Lines 38-46, `sanitize_filename(name, max_length=100)`:
replace invalid characters with `_`, collapse runs of `_`, strip `. _`
from both ends, truncate to `max_length` and re-strip the tail, and fall
back to `"unnamed"` when the result is empty. -/
def sanitize_filename (name : List Char) (maxLength : Nat) : List Char :=
  let s1 := replaceInvalid name
  let s2 := collapseUnderscores s1
  let s3 := stripSet s2
  let s4 := if maxLength < s3.length then rstripSet (s3.take maxLength) else s3
  if s4 = [] then ("unnamed".toList) else s4

/-- Python `str.strip()` whitespace set (ASCII part), used on lines 59 and 66. -/
def isPyWs (c : Char) : Bool :=
  c = ' ' || c = '\t' || c = '\n' || c = '\x0b' || c = '\x0c' || c = '\r'

/-- Python `str.strip()` with no argument: strip whitespace from both ends. -/
def pyStrip (s : List Char) : List Char :=
  ((s.dropWhile isPyWs).reverse.dropWhile isPyWs).reverse

/-- The regular expression of line 59, `^([^<]+)\s*<[^>]+>$`, applied with
`re.match` to the stripped sender.  The greedy group `([^<]+)` always
captures everything before the first `<`; a match exists exactly when that
prefix is nonempty, a `<` is present, the final character is `>`, and the
characters strictly between the first `<` and the final `>` are nonempty
and contain no `>`.  Returns `group(1)` on success. -/
def displayMatch (t : List Char) : Option (List Char) :=
  let A := t.takeWhile fun c => c ≠ '<'
  match t.dropWhile fun c => c ≠ '<' with
  | [] => none
  | _ :: tail =>
    if A = [] then none
    else
      match tail.reverse with
      | [] => none
      | last :: revB =>
        if last = '>' && revB ≠ [] && !(revB.contains '>') then some A else none

/-- Lines 49-66, `extract_sender_name(sender)`: display-name form first,
then the local-part rule (guarded only by `'@' in sender and '<' not in
sender`), then the stripped input; empty input gives `"unknown"`. -/
def extract_sender_name (sender : List Char) : List Char :=
  if sender = [] then ("unknown".toList)
  else
    match displayMatch (pyStrip sender) with
    | some name => pyStrip name
    | none =>
      if sender.contains '@' && !(sender.contains '<') then
        sender.takeWhile fun c => c ≠ '@'
      else pyStrip sender

/-- Decimal digits of `n`, little-endian, with structural fuel (the fuel is
always taken to be `n` itself, which suffices). -/
def digitCharsAux : Nat → Nat → List Char
  | 0, _ => []
  | _ + 1, 0 => []
  | fuel + 1, n + 1 => Nat.digitChar ((n + 1) % 10) :: digitCharsAux fuel ((n + 1) / 10)

/-- Python `str(n)` for a natural number: decimal digits, no padding. -/
def natToChars (n : Nat) : List Char :=
  if n = 0 then ['0'] else (digitCharsAux n n).reverse

/-- The candidate path probed by `generate_unique_filename` (lines 69-81):
probe 0 is `dir/{filename}{extension}`, probe `n+1` is
`dir/{filename}_{n+1}{extension}`.  Path joining uses `/`. -/
def pathFor (dir fname ext : List Char) : Nat → List Char
  | 0 => dir ++ '/' :: (fname ++ ext)
  | n + 1 => dir ++ '/' :: (fname ++ '_' :: (natToChars (n + 1) ++ ext))

/-- The `while True` probe loop of lines 75-80, with explicit fuel.  The
directory is modelled as the list `fs` of existing paths; the loop in the
source is unbounded, and `fs.length + 1` probes are proven sufficient
below, so the fuel-exhaustion fallback is unreachable. -/
def searchFrom (fs : List (List Char)) (dir fname ext : List Char) : Nat → Nat → List Char
  | 0, k => pathFor dir fname ext k
  | fuel + 1, k =>
    if pathFor dir fname ext k ∈ fs then searchFrom fs dir fname ext fuel (k + 1)
    else pathFor dir fname ext k

/-- Lines 69-81, `generate_unique_filename(base_path, filename, extension)`,
over the set `fs` of existing paths: return the unsuffixed path when free,
otherwise the first free `_1`, `_2`, ... suffix. -/
def generate_unique_filename (fs : List (List Char)) (dir fname ext : List Char) : List Char :=
  if pathFor dir fname ext 0 ∈ fs then searchFrom fs dir fname ext (fs.length + 1) 1
  else pathFor dir fname ext 0

/-- The `ReceivedTime` value seen by `format_email_date` (lines 83-98).
The `datetime` library is external, so a timestamp is abstracted to: absent
(`None`), a value that formats successfully to the given pair of strings,
or a value whose formatting raises. -/
inductive RecvTime where
  | absent
  | formatted (fnameDate displayDate : List Char)
  | bad

/-- Lines 83-98, `format_email_date(received_time)` returning
`(filename_date, display_date)`; `now` is the ambient clock pair used when
the timestamp is `None`. -/
def format_email_date (now : List Char × List Char) : RecvTime → List Char × List Char
  | .absent => now
  | .formatted f d => (f, d)
  | .bad => (("unknown-date".toList), ("Unknown".toList))

/-- Lines 101-108, `html_to_markdown(html_body, plain_body)`: when the HTML
body is nonempty, try the external converter `conv` (markdownify with ATX
headings and `-` bullets), falling back to the plain body on failure. -/
def html_to_markdown (conv : List Char → Except (List Char) (List Char))
    (htmlBody plainBody : List Char) : List Char :=
  if htmlBody ≠ [] then
    match conv htmlBody with
    | .ok m => m
    | .error _ => plainBody
  else plainBody

/-- The `Recipients` collection of a mail item as seen by
`format_recipients` (lines 111-128): absent (falsy), a collection any
access of which raises, or an available list of (Name, Address) pairs. -/
inductive RecipView where
  | absent
  | failing
  | avail (rs : List (List Char × List Char))

/-- Lines 111-128, `format_recipients(recipients)`: join each recipient as
`Name <Address>` (or just the name when the address is empty or equal to
it), with `"Unknown"` when both name and address are empty; any failure
reading the collection yields the empty string. -/
def format_recipients : RecipView → List Char
  | .absent => []
  | .failing => []
  | .avail rs =>
    List.intercalate (", ".toList) (rs.map fun nr =>
      let name := if nr.1 ≠ [] then nr.1 else if nr.2 ≠ [] then nr.2 else ("Unknown".toList)
      let address := nr.2
      if address ≠ [] && address ≠ name then name ++ (" <".toList) ++ address ++ ['>']
      else name)

/-- One attachment of a mail item (lines 171-184).  `FileName` is the COM
accessor `att.FileName` (which can raise); `payload` is the
`SaveAsFile`-to-temp-file-and-read-back round trip of lines 177-179, which
can likewise raise at any step. -/
structure Attachment where
  FileName : Except (List Char) (List Char)
  payload : Except (List Char) (List Nat)

/-- An Outlook `MailItem` as accessed by `create_email_markdown`
(lines 131-210).  Each COM property access can raise, hence `Except`.
An empty list models both a `None` and an empty-string property (they are
indistinguishable through the `or` fallbacks in the source). -/
structure MailItem where
  Subject : Except (List Char) (List Char)
  SenderName : Except (List Char) (List Char)
  SenderEmailAddress : Except (List Char) (List Char)
  ReceivedTime : Except (List Char) RecvTime
  Recipients : Except (List Char) RecipView
  CC : Except (List Char) (List Char)
  HTMLBody : Except (List Char) (List Char)
  Body : Except (List Char) (List Char)
  Attachments : Except (List Char) (List Attachment)

/-- Line 139: `mail_item.SenderName or mail_item.SenderEmailAddress or
"Unknown"`, with Python short-circuiting (the second accessor only runs
when the first yields a falsy value). -/
def senderOf (m : MailItem) : Except (List Char) (List Char) :=
  match m.SenderName with
  | .error e => .error e
  | .ok sn =>
    if sn ≠ [] then .ok sn
    else
      match m.SenderEmailAddress with
      | .error e => .error e
      | .ok se => .ok (if se ≠ [] then se else ("Unknown".toList))

/-- The body of the attachment loop for index `i` (lines 172-180): read the
file name (fallback `attachment_{i}` when falsy), sanitize it, and
materialize the payload.  Any raise here aborts the whole loop. -/
def processAtt (i : Nat) (a : Attachment) : Except (List Char) (List Char × List Nat) :=
  match a.FileName with
  | .error e => .error e
  | .ok fnRaw =>
    let fn := sanitize_filename (if fnRaw ≠ [] then fnRaw else ("attachment_".toList) ++ natToChars i) 100
    match a.payload with
    | .error e => .error e
    | .ok d => .ok (fn, d)

/-- The attachment loop of lines 170-186 starting at index `i`: collect
`(filename, data)` pairs and Markdown link lines; the first raise aborts
the loop (the enclosing `except ... pass`), keeping what was already
collected. -/
def extractGo (i : Nat) : List Attachment → List (List Char × List Nat) × List (List Char)
  | [] => ([], [])
  | a :: rest =>
    match processAtt i a with
    | .error _ => ([], [])
    | .ok fd =>
      let tail := extractGo (i + 1) rest
      (fd :: tail.1, (("- [".toList) ++ fd.1 ++ ("](".toList) ++ fd.1 ++ [')']) :: tail.2)

/-- The attachment loop starting at index 1, as in the source. -/
def extractAttachments (atts : List Attachment) : List (List Char × List Nat) × List (List Char) :=
  extractGo 1 atts

/-- The field-table row labels of the f-string at lines 188-197. -/
def rowFrom : List Char := "| **From** | ".toList

/-- Label of the To row. -/
def rowTo : List Char := "| **To** | ".toList

/-- Label of the CC row. -/
def rowCC : List Char := "| **CC** | ".toList

/-- Label of the Date row. -/
def rowDate : List Char := "| **Date** | ".toList

/-- The Markdown document assembled at lines 188-205: title, field table,
optional attachments section, content section. -/
def mdDoc (subject sender toRecipients ccRecipients dateDisplay : List Char)
    (links : List (List Char)) (bodyMd : List Char) : List Char :=
  ("# ".toList) ++ subject ++
  ("\n\n| Field | Value |\n|-------|-------|\n".toList) ++
  rowFrom ++ sender ++ (" |\n".toList) ++
  rowTo ++ toRecipients ++ (" |\n".toList) ++
  rowCC ++ ccRecipients ++ (" |\n".toList) ++
  rowDate ++ dateDisplay ++ (" |\n\n".toList) ++
  (if links ≠ [] then
    ("## Attachments\n\n".toList) ++ List.intercalate ['\n'] links ++ ("\n\n".toList)
  else []) ++
  ("## Content\n\n".toList) ++ bodyMd

/-- The body of the `try` block of `create_email_markdown` (lines 137-207).
Accessors wrapped in their own `try/except` in the source (CC, HTMLBody,
Body, the attachment loop) default on failure; every other raise aborts
the block.  `conv` is the external HTML-to-Markdown converter and `now`
the ambient clock pair. -/
def renderMail (conv : List Char → Except (List Char) (List Char))
    (now : List Char × List Char) (m : MailItem) :
    Except (List Char) (List Char × List Char × List (List Char × List Nat)) :=
  match m.Subject with
  | .error e => .error e
  | .ok subjRaw =>
    let subject := if subjRaw ≠ [] then subjRaw else ("No Subject".toList)
    match senderOf m with
    | .error e => .error e
    | .ok sender =>
      match m.ReceivedTime with
      | .error e => .error e
      | .ok rt =>
        match m.Recipients with
        | .error e => .error e
        | .ok recips =>
          let toRecipients := format_recipients recips
          let ccRecipients := match m.CC with | .ok c => c | .error _ => []
          let htmlBody := match m.HTMLBody with | .ok h => h | .error _ => []
          let plainBody := match m.Body with | .ok b => b | .error _ => []
          let fd := format_email_date now rt
          let senderName := extract_sender_name sender
          let filenameBase :=
            sanitize_filename (fd.1 ++ '_' :: (senderName ++ '_' :: subject)) 100
          let bodyMd := html_to_markdown conv htmlBody plainBody
          let ea := match m.Attachments with
            | .error _ => ([], [])
            | .ok atts => extractAttachments atts
          .ok (filenameBase,
               mdDoc subject sender toRecipients ccRecipients fd.2 ea.2 bodyMd,
               ea.1)

/-- Lines 131-210, `create_email_markdown(mail_item)`: the `try` body, with
the catch-all `except` of line 209 turning any raise into the degraded
`("error_email", error document, no attachments)` triple. -/
def create_email_markdown (conv : List Char → Except (List Char) (List Char))
    (now : List Char × List Char) (m : MailItem) :
    List Char × List Char × List (List Char × List Nat) :=
  match renderMail conv now m with
  | .ok r => r
  | .error e =>
    (("error_email".toList),
     ("# Error Processing Email\n\nError: ".toList) ++ e,
     [])

/-- Content written to the output tree: a text file (`write_text`) or a
binary file (`write_bytes`). -/
inductive FileData where
  | text (content : List Char)
  | bytes (data : List Nat)
  deriving DecidableEq

/-- The output directory state seen by `process_folder` (lines 244-258):
the paths that exist (probed by `generate_unique_filename`) and the files
written so far with their contents (most recent first). -/
structure FSState where
  existing : List (List Char)
  files : List (List Char × FileData)
  deriving DecidableEq

/-- Line 248, `email_folder.mkdir(parents=True, exist_ok=True)`, which can
raise; `bad` is the set of paths whose filesystem operation fails. -/
def mkdirF (bad : List (List Char)) (st : FSState) (p : List Char) :
    Except (List Char × FSState) FSState :=
  if p ∈ bad then .error (("mkdir failed: ".toList) ++ p, st)
  else .ok { existing := p :: st.existing, files := st.files }

/-- Lines 251 and 258, `md_path.write_text(md_content, encoding='utf-8')`. -/
def writeTextF (bad : List (List Char)) (st : FSState) (p content : List Char) :
    Except (List Char × FSState) FSState :=
  if p ∈ bad then .error (("write failed: ".toList) ++ p, st)
  else .ok { existing := p :: st.existing, files := (p, FileData.text content) :: st.files }

/-- Line 255, `att_path.write_bytes(att_data)`. -/
def writeBytesF (bad : List (List Char)) (st : FSState) (p : List Char) (d : List Nat) :
    Except (List Char × FSState) FSState :=
  if p ∈ bad then .error (("write failed: ".toList) ++ p, st)
  else .ok { existing := p :: st.existing, files := (p, FileData.bytes d) :: st.files }

/-- The attachment-writing loop of lines 253-255: write each attachment
into the email folder; a raise aborts the loop, keeping the state written
so far (Python mutations persist past an exception). -/
def writeAtts (bad : List (List Char)) (emailFolder : List Char) :
    List (List Char × List Nat) → FSState → Except (List Char × FSState) FSState
  | [], st => .ok st
  | att :: rest, st =>
    match writeBytesF bad st (emailFolder ++ '/' :: att.1) att.2 with
    | .error es => .error es
    | .ok st' => writeAtts bad emailFolder rest st'

/-- The per-item writing rule of `process_folder`, lines 246-258: with at
least one attachment, allocate a unique extensionless folder name, create
it and write `{base}.md` plus each attachment inside it; with none, write
a uniquely allocated `{base}.md` directly under the output root.  An error
carries the message and the state at the moment of the raise. -/
def processItemF (bad : List (List Char)) (st : FSState)
    (outDir base content : List Char) (atts : List (List Char × List Nat)) :
    Except (List Char × FSState) FSState :=
  if atts ≠ [] then
    let emailFolder := generate_unique_filename st.existing outDir base []
    match mkdirF bad st emailFolder with
    | .error es => .error es
    | .ok st1 =>
      match writeTextF bad st1 (emailFolder ++ '/' :: (base ++ (".md".toList))) content with
      | .error es => .error es
      | .ok st2 => writeAtts bad emailFolder atts st2
  else
    writeTextF bad st (generate_unique_filename st.existing outDir base (".md".toList)) content

/-- The per-item `try/except` of `process_folder`, lines 241-264: a
successful write counts the item as processed (`processed += 1`); a raise
is caught, logged as a warning, and the item is not counted, while the
writes made before the raise remain on disk. -/
def handleItem (bad : List (List Char)) (st : FSState)
    (outDir base content : List Char) (atts : List (List Char × List Nat)) :
    FSState × Bool :=
  match processItemF bad st outDir base content atts with
  | .ok st' => (st', true)
  | .error es => (es.2, false)

/-- The environment of one `process_pst_file` call (lines 278-333).  The
COM session is external, so it is abstracted to: whether the archive file
exists, the outcome of `Dispatch`/`GetNamespace`/`AddStore` (line 294-297),
whether a root folder is located (lines 299-317, including the
last-top-level-folder fallback), and the traversal outcome `walk`:
the number of items `process_folder` completed, paired with the terminating
exception when one escaped the `tqdm` block (in which case the local count
is lost).  `RemoveStore` (lines 325-328) swallows its own failures and
cannot affect the result. -/
structure ArchiveEnv where
  pstName : List Char
  fileExists : Bool
  sessionInit : Except (List Char) Unit
  rootLocated : Bool
  walk : Nat × Option (List Char)

/-- The `try` body of `process_pst_file` (lines 293-330): session setup,
root location (with the literal error string of line 317 returned, not
raised), then the walk; `.error` is a raise reaching line 332. -/
def pstBody (env : ArchiveEnv) : Except (List Char) (Nat × Option (List Char)) :=
  match env.sessionInit with
  | .error e => .error e
  | .ok _ =>
    if env.rootLocated then
      match env.walk.2 with
      | some e => .error e
      | none => .ok (env.walk.1, none)
    else .ok (0, some ("Could not locate PST folder in Outlook".toList))

/-- Lines 278-333, `process_pst_file`, returning
`(pst_name, processed_count, error_message)`: a missing file or any raise
caught at line 332 yields a zero count with the error message. -/
def process_pst_file (env : ArchiveEnv) : List Char × Nat × Option (List Char) :=
  if env.fileExists then
    match pstBody env with
    | .ok r => (env.pstName, r.1, r.2)
    | .error e => (env.pstName, 0, some e)
  else (env.pstName, 0, some (("File not found: ".toList) ++ env.pstName))

/-- Line 383, `num_workers = min(args.workers, len(pst_files))`.  The
requested count is an `Int` because argparse accepts negative integers;
the source applies no lower clamp. -/
def effective_workers (requested : Int) (inputCount : Nat) : Int :=
  min requested (inputCount : Int)

/-- The patterns all occur in the document, in the given order and without
overlap: the document splits as prefix, first pattern, and a remainder in
which the remaining patterns occur in order. -/
def containsInOrder : List Char → List (List Char) → Prop
  | _, [] => True
  | doc, p :: ps => ∃ pre suf, doc = pre ++ (p ++ suf) ∧ containsInOrder suf ps

/-- No two adjacent underscores: the invariant produced by
`collapseUnderscores` and preserved by the later sanitizer stages. -/
def NoDoubleUnderscore (s : List Char) : Prop :=
  s.Chain' fun a b => ¬(a = '_' ∧ b = '_')

/-- A concrete always-succeeding HTML-to-Markdown converter, used to
instantiate theorems at concrete inputs. -/
def convId : List Char → Except (List Char) (List Char) := fun h => .ok h

/-- A concrete ambient clock pair. -/
def nowPair : List Char × List Char :=
  (("2024-01-01").toList, ("2024-01-01 00:00:00").toList)

/-- A concrete attachment whose extraction succeeds. -/
def goodAtt : Attachment :=
  { FileName := .ok (("a.txt").toList), payload := .ok [65] }

/-- A concrete attachment whose `SaveAsFile` round trip raises. -/
def badAtt : Attachment :=
  { FileName := .ok (("b.txt").toList), payload := .error (("save failed").toList) }

/-- A concrete mail item whose fields all read successfully and whose
second attachment fails to extract. -/
def cexMailItem : MailItem where
  Subject := .ok (("Hi").toList)
  SenderName := .ok (("Ann").toList)
  SenderEmailAddress := .ok []
  ReceivedTime := .ok (.formatted (("2024-01-02").toList) (("2024-01-02 03:04:05").toList))
  Recipients := .ok (.avail [((("Bob").toList), (("bob@x.com").toList))])
  CC := .ok []
  HTMLBody := .ok []
  Body := .ok (("hello").toList)
  Attachments := .ok [goodAtt, badAtt]

/-- Value of a little-endian list of decimal digit characters; a left
inverse of digitCharsAux, used to prove that distinct counters of the
unique-filename probe loop render to distinct strings. -/
def digitsVal : List Char → Nat
  | [] => 0
  | c :: t => (c.toNat - 48) + 10 * digitsVal t

theorem replaceInvalid_no_invalid (s : List Char) :
    ∀ c ∈ replaceInvalid s, isInvalidChar c = false := by
  intro c hc
  simp only [replaceInvalid, List.mem_map] at hc
  obtain ⟨a, _, rfl⟩ := hc
  by_cases h : isInvalidChar a = true
  · simp only [if_pos h]; decide
  · simp only [if_neg h]
    exact Bool.not_eq_true _ ▸ h

theorem collapse_subset (s : List Char) : ∀ c ∈ collapseUnderscores s, c ∈ s := by
  induction s with
  | nil => simp [collapseUnderscores]
  | cons a t ih =>
    cases t with
    | nil => simp [collapseUnderscores]
    | cons b u =>
      intro c hc
      simp only [collapseUnderscores] at hc
      split at hc
      · exact List.mem_cons_of_mem a (ih c hc)
      · rcases List.mem_cons.mp hc with h | h
        · exact h ▸ List.mem_cons_self a _
        · exact List.mem_cons_of_mem a (ih c h)

theorem rstripSet_subset (s : List Char) : rstripSet s ⊆ s := by
  intro c hc
  unfold rstripSet at hc
  rw [List.mem_reverse] at hc
  have := (List.dropWhile_suffix isStripSet).sublist.subset hc
  rwa [List.mem_reverse] at this

theorem stripSet_subset (s : List Char) : stripSet s ⊆ s := by
  intro c hc
  unfold stripSet at hc
  exact (List.dropWhile_suffix isStripSet).sublist.subset (rstripSet_subset _ hc)

theorem sanitize_filename_subset_or_placeholder (name : List Char) (maxLength : Nat) :
    sanitize_filename name maxLength = ("unnamed").toList ∨
    sanitize_filename name maxLength ⊆ replaceInvalid name := by
  unfold sanitize_filename
  dsimp only
  split
  · split
    · exact Or.inl rfl
    · refine Or.inr fun c hc => ?_
      have hc2 := rstripSet_subset _ hc
      have hc3 := (List.take_sublist _ _).subset hc2
      exact collapse_subset _ _ (stripSet_subset _ hc3)
  · split
    · exact Or.inl rfl
    · refine Or.inr fun c hc => ?_
      exact collapse_subset _ _ (stripSet_subset _ hc)

theorem rstripSet_length_le (s : List Char) : (rstripSet s).length ≤ s.length := by
  unfold rstripSet
  rw [List.length_reverse]
  calc (s.reverse.dropWhile isStripSet).length ≤ s.reverse.length :=
        (List.dropWhile_suffix isStripSet).sublist.length_le
    _ = s.length := List.length_reverse _

theorem sanitize_filename_ne_nil (name : List Char) (maxLength : Nat) :
    sanitize_filename name maxLength ≠ [] := by
  unfold sanitize_filename
  dsimp only
  split <;> split
  · decide
  · assumption
  · decide
  · assumption

theorem sanitize_filename_no_invalid (name : List Char) (maxLength : Nat) :
    ∀ c ∈ sanitize_filename name maxLength, isInvalidChar c = false := by
  rcases sanitize_filename_subset_or_placeholder name maxLength with h | h
  · rw [h]; decide
  · intro c hc
    exact replaceInvalid_no_invalid name c (h hc)

/-- C7 counterexample: the claim quantifies over every max_length, but at
max_length 3 the empty input yields the fixed placeholder "unnamed",
whose length 7 exceeds 3; the sanitizer does not truncate the
placeholder. -/
theorem sanitize_filename_short_max_counterexample :
    sanitize_filename [] 3 = ("unnamed").toList ∧
    ¬((sanitize_filename [] 3).length ≤ 3) := by
  constructor <;> decide

/-- C7 (amended): for every input string and every max_length at least 7
(the length of the placeholder "unnamed"), the output of
sanitize_filename contains none of the forbidden characters (control
characters and the nine punctuation characters), has length at most
max_length, and is never empty. -/
theorem sanitize_filename_safe (name : List Char) (maxLength : Nat)
    (h : 7 ≤ maxLength) :
    (∀ c ∈ sanitize_filename name maxLength, isInvalidChar c = false) ∧
    (sanitize_filename name maxLength).length ≤ maxLength ∧
    sanitize_filename name maxLength ≠ [] := by
  refine ⟨sanitize_filename_no_invalid name maxLength, ?_, sanitize_filename_ne_nil name maxLength⟩
  have h7 : (("unnamed").toList).length = 7 := by decide
  unfold sanitize_filename
  dsimp only
  split
  · split
    · omega
    · calc (rstripSet (List.take maxLength (stripSet (collapseUnderscores (replaceInvalid name))))).length
          ≤ (List.take maxLength (stripSet (collapseUnderscores (replaceInvalid name)))).length :=
            rstripSet_length_le _
        _ ≤ maxLength := by
            rw [List.length_take]; omega
  · next htr =>
    split
    · omega
    · omega

/-- Witness for the amended C7 at a concrete input. -/
theorem sanitize_filename_safe_witness :
    7 ≤ 100 ∧
    ((∀ c ∈ sanitize_filename (("a<b").toList) 100, isInvalidChar c = false) ∧
     (sanitize_filename (("a<b").toList) 100).length ≤ 100 ∧
     sanitize_filename (("a<b").toList) 100 ≠ []) :=
  ⟨by decide, sanitize_filename_safe (("a<b").toList) 100 (by decide)⟩

theorem collapse_head? (t : List Char) :
    ∀ c, (collapseUnderscores (c :: t)).head? = some c := by
  induction t with
  | nil => intro c; rfl
  | cons b u ih =>
    intro c
    simp only [collapseUnderscores]
    split
    · next hb =>
      rw [ih b]
      simp only [Bool.and_eq_true, decide_eq_true_eq] at hb
      rw [hb.1, hb.2]
    · rfl

theorem collapse_chain (s : List Char) : NoDoubleUnderscore (collapseUnderscores s) := by
  induction s with
  | nil => exact List.chain'_nil
  | cons a t ih =>
    cases t with
    | nil => simp [collapseUnderscores, NoDoubleUnderscore]
    | cons b u =>
      simp only [collapseUnderscores]
      split
      · exact ih
      · next hb =>
        rw [NoDoubleUnderscore, List.chain'_cons']
        refine ⟨?_, ih⟩
        intro y hy
        rw [collapse_head? u b] at hy
        cases hy
        simp only [Bool.and_eq_true, decide_eq_true_eq, not_and] at hb ⊢
        intro ha hb2
        exact hb ha hb2

theorem collapse_eq_self (s : List Char) (h : NoDoubleUnderscore s) :
    collapseUnderscores s = s := by
  induction s with
  | nil => rfl
  | cons a t ih =>
    cases t with
    | nil => rfl
    | cons b u =>
      rw [NoDoubleUnderscore, List.chain'_cons] at h
      simp only [collapseUnderscores]
      rw [if_neg (by simpa using h.1), ih h.2]

theorem rstripSet_eq_rdropWhile (s : List Char) :
    rstripSet s = List.rdropWhile isStripSet s := rfl

theorem stripSet_eq_rdrop (s : List Char) :
    stripSet s = List.rdropWhile isStripSet (s.dropWhile isStripSet) := rfl

theorem head?_dropWhile_false (p : Char → Bool) (l : List Char) (c : Char)
    (h : (l.dropWhile p).head? = some c) : p c = false := by
  induction l with
  | nil => simp at h
  | cons a t ih =>
    rw [List.dropWhile_cons] at h
    split at h
    · exact ih h
    · next hp =>
      cases h
      cases hpa : p c with
      | false => rfl
      | true => exact absurd hpa hp

theorem prefix_head? {t w : List Char} (h : t <+: w) (ht : t ≠ []) :
    t.head? = w.head? := by
  obtain ⟨r, rfl⟩ := h
  cases t with
  | nil => exact absurd rfl ht
  | cons a t' => rfl

theorem stripSet_infix_self (s : List Char) : stripSet s <:+: s := by
  rw [stripSet_eq_rdrop]
  exact (List.rdropWhile_prefix _ _).isInfix.trans (List.dropWhile_suffix _).isInfix

theorem rstripSet_prefix_self (s : List Char) : rstripSet s <+: s := by
  rw [rstripSet_eq_rdropWhile]
  exact List.rdropWhile_prefix _ _

theorem stripSet_head_false (s : List Char) (c : Char)
    (h : (stripSet s).head? = some c) : isStripSet c = false := by
  have hne : stripSet s ≠ [] := by
    intro hnil; rw [hnil] at h; simp at h
  rw [stripSet_eq_rdrop] at h hne
  rw [prefix_head? (List.rdropWhile_prefix _ _) hne] at h
  exact head?_dropWhile_false _ _ _ h

theorem rstripSet_getLast_false (s : List Char) (c : Char)
    (h : (rstripSet s).getLast? = some c) : isStripSet c = false := by
  have hne : rstripSet s ≠ [] := by
    intro hnil; rw [hnil] at h; simp at h
  rw [rstripSet_eq_rdropWhile] at h hne
  have := List.rdropWhile_last_not isStripSet s hne
  rw [List.getLast?_eq_getLast _ hne] at h
  cases h
  cases hpa : isStripSet ((List.rdropWhile isStripSet s).getLast hne) with
  | false => rfl
  | true => exact absurd hpa this

theorem stripSet_getLast_false (s : List Char) (c : Char)
    (h : (stripSet s).getLast? = some c) : isStripSet c = false := by
  rw [stripSet_eq_rdrop, ← rstripSet_eq_rdropWhile] at h
  exact rstripSet_getLast_false _ _ h

theorem dropWhile_eq_self_of_head (p : Char → Bool) (s : List Char)
    (h : ∀ c, s.head? = some c → p c = false) : s.dropWhile p = s := by
  cases s with
  | nil => rfl
  | cons a t =>
    rw [List.dropWhile_cons, if_neg]
    rw [h a rfl]
    simp

theorem rstripSet_eq_self (s : List Char)
    (h : ∀ c, s.getLast? = some c → isStripSet c = false) : rstripSet s = s := by
  unfold rstripSet
  rw [dropWhile_eq_self_of_head isStripSet s.reverse, List.reverse_reverse]
  intro c hc
  rw [List.head?_reverse] at hc
  exact h c hc

theorem stripSet_eq_self (s : List Char)
    (hh : ∀ c, s.head? = some c → isStripSet c = false)
    (hl : ∀ c, s.getLast? = some c → isStripSet c = false) : stripSet s = s := by
  unfold stripSet
  rw [dropWhile_eq_self_of_head isStripSet s hh]
  exact rstripSet_eq_self s hl

theorem replaceInvalid_eq_self (s : List Char)
    (h : ∀ c ∈ s, isInvalidChar c = false) : replaceInvalid s = s := by
  induction s with
  | nil => rfl
  | cons a t ih =>
    simp only [replaceInvalid, List.map_cons]
    rw [if_neg (by rw [h a (List.mem_cons_self a t)]; simp)]
    have := ih fun c hc => h c (List.mem_cons_of_mem a hc)
    simpa [replaceInvalid] using this

theorem sanitize_fixed_point (s : List Char)
    (h1 : ∀ c ∈ s, isInvalidChar c = false)
    (h2 : NoDoubleUnderscore s)
    (h3 : ∀ c, s.head? = some c → isStripSet c = false)
    (h4 : ∀ c, s.getLast? = some c → isStripSet c = false)
    (h5 : s.length ≤ 100) (h6 : s ≠ []) :
    sanitize_filename s 100 = s := by
  unfold sanitize_filename
  dsimp only
  rw [replaceInvalid_eq_self s h1, collapse_eq_self s h2, stripSet_eq_self s h3 h4,
      if_neg (show ¬(100 < s.length) by omega), if_neg h6]

/-- C8: the sanitizer is idempotent at the default max_length 100. -/
theorem sanitize_filename_idempotent (x : List Char) :
    sanitize_filename (sanitize_filename x 100) 100 = sanitize_filename x 100 := by
  have hy : sanitize_filename x 100 =
      (if (if 100 < (stripSet (collapseUnderscores (replaceInvalid x))).length
            then rstripSet ((stripSet (collapseUnderscores (replaceInvalid x))).take 100)
            else stripSet (collapseUnderscores (replaceInvalid x))) = []
       then ("unnamed").toList
       else (if 100 < (stripSet (collapseUnderscores (replaceInvalid x))).length
            then rstripSet ((stripSet (collapseUnderscores (replaceInvalid x))).take 100)
            else stripSet (collapseUnderscores (replaceInvalid x)))) := rfl
  set s2 := collapseUnderscores (replaceInvalid x) with hs2
  set s3 := stripSet s2 with hs3
  set s4 := if 100 < s3.length then rstripSet (s3.take 100) else s3 with hs4
  by_cases h4 : s4 = []
  · rw [hy, if_pos h4]; decide
  · rw [hy, if_neg h4]
    have hpre : s4 <+: s3 := by
      rw [hs4]; split
      · exact (rstripSet_prefix_self _).trans (List.take_prefix _ _)
      · exact List.prefix_rfl
    have hinfix : s4 <:+: s2 := hpre.isInfix.trans (by rw [hs3]; exact stripSet_infix_self s2)
    have F1 : ∀ c ∈ s4, isInvalidChar c = false := by
      intro c hc
      have hc3 : c ∈ s3 := hpre.sublist.subset hc
      have hc2 : c ∈ s2 := by rw [hs3] at hc3; exact stripSet_subset _ hc3
      have hcr : c ∈ replaceInvalid x := by rw [hs2] at hc2; exact collapse_subset _ _ hc2
      exact replaceInvalid_no_invalid x c hcr
    have F2 : NoDoubleUnderscore s4 := by
      have hch := collapse_chain (replaceInvalid x)
      rw [← hs2] at hch
      exact List.Chain'.infix hch hinfix
    have F3 : s4.length ≤ 100 := by
      rw [hs4]; split
      · next htr =>
        calc (rstripSet (s3.take 100)).length
            ≤ (s3.take 100).length := rstripSet_length_le _
          _ ≤ 100 := by rw [List.length_take]; omega
      · next htr => omega
    have F4 : ∀ c, s4.head? = some c → isStripSet c = false := by
      intro c hc
      rw [prefix_head? hpre h4, hs3] at hc
      exact stripSet_head_false _ _ hc
    have F5 : ∀ c, s4.getLast? = some c → isStripSet c = false := by
      intro c hc
      rw [hs4] at hc
      split at hc
      · exact rstripSet_getLast_false _ _ hc
      · rw [hs3] at hc; exact stripSet_getLast_false _ _ hc
    exact sanitize_fixed_point s4 F1 F2 F4 F5 F3 h4

theorem pyStrip_subset (s : List Char) : pyStrip s ⊆ s := by
  intro c hc
  unfold pyStrip at hc
  rw [List.mem_reverse] at hc
  have h2 := (List.dropWhile_suffix isPyWs).sublist.subset hc
  rw [List.mem_reverse] at h2
  exact (List.dropWhile_suffix isPyWs).sublist.subset h2

theorem takeWhile_append_all (p : Char → Bool) (A R : List Char)
    (hA : ∀ a ∈ A, p a = true) (c : Char) (hc : p c = false) :
    (A ++ c :: R).takeWhile p = A ∧ (A ++ c :: R).dropWhile p = c :: R := by
  induction A with
  | nil => simp [List.takeWhile_cons, List.dropWhile_cons, hc]
  | cons a t ih =>
    have ha := hA a (List.mem_cons_self a t)
    have iht := ih fun b hb => hA b (List.mem_cons_of_mem a hb)
    simp only [List.cons_append, List.takeWhile_cons, List.dropWhile_cons, ha, if_pos]
    exact ⟨by rw [iht.1], by rw [iht.2]⟩

theorem displayMatch_decomp (A B : List Char) (hA : A ≠ []) (hAlt : '<' ∉ A)
    (hB : B ≠ []) (hBgt : '>' ∉ B) :
    displayMatch (A ++ '<' :: (B ++ ['>'])) = some A := by
  have hall : ∀ a ∈ A, (decide (a ≠ '<')) = true := by
    intro a ha
    simp only [decide_eq_true_eq]
    exact fun h => hAlt (h ▸ ha)
  obtain ⟨tw, dw⟩ :=
    takeWhile_append_all (fun c => decide (c ≠ '<')) A (B ++ ['>']) hall '<' (by simp)
  simp only [displayMatch, tw, dw]
  rw [if_neg (by simpa using hA)]
  have hrev : ((B ++ ['>']) : List Char).reverse = '>' :: B.reverse := by
    simp [List.reverse_append]
  simp only [hrev]
  have h1 : B.reverse ≠ [] := by simpa using hB
  simp [h1, hBgt]

theorem displayMatch_none_of_no_lt (t : List Char) (h : '<' ∉ t) :
    displayMatch t = none := by
  have hd : (t.dropWhile fun c => decide (c ≠ '<')) = [] := by
    rw [List.dropWhile_eq_nil_iff]
    intro x hx
    simp only [decide_eq_true_eq]
    exact fun he => h (he ▸ hx)
  simp only [displayMatch, hd]

/-- C5 counterexample: the input "a@b>" contains an angle bracket and yet
the code returns the local part "a", because the guard of line 63 checks
only for an opening angle bracket; the claim prescribes the trimmed input
"a@b>" for this string. -/
theorem extract_sender_name_angle_counterexample :
    (("a@b>").toList).contains '@' = true ∧
    (("a@b>").toList).contains '>' = true ∧
    displayMatch (pyStrip (("a@b>").toList)) = none ∧
    pyStrip (("a@b>").toList) = ("a@b>").toList ∧
    extract_sender_name (("a@b>").toList) = ("a").toList ∧
    ("a").toList ≠ ("a@b>").toList := by
  refine ⟨?_, ?_, ?_, ?_, ?_, ?_⟩ <;> decide

/-- C5 (amended): extract_sender_name returns "unknown" on empty input; the
stripped display name when the stripped input matches `Display Name
<address>` (the displayMatch shape proved in the second conjunct); else
the local part before the first `@` when the input contains `@` and no `<`
character (the code does not test for `>`); else the stripped input.  The
three example strings of the claim evaluate as stated. -/
theorem extract_sender_name_spec :
    extract_sender_name [] = ("unknown").toList
    ∧ (∀ A B : List Char, A ≠ [] → '<' ∉ A → B ≠ [] → '>' ∉ B →
        displayMatch (A ++ '<' :: (B ++ ['>'])) = some A)
    ∧ (∀ s A, s ≠ [] → displayMatch (pyStrip s) = some A →
        extract_sender_name s = pyStrip A)
    ∧ (∀ s : List Char, s ≠ [] → s.contains '@' = true → s.contains '<' = false →
        extract_sender_name s = s.takeWhile fun c => c ≠ '@')
    ∧ (∀ s : List Char, s ≠ [] → displayMatch (pyStrip s) = none →
        (s.contains '@' = false ∨ s.contains '<' = true) →
        extract_sender_name s = pyStrip s)
    ∧ extract_sender_name (("Name <a@b.com>").toList) = ("Name").toList
    ∧ extract_sender_name (("a@b.com").toList) = ("a").toList
    ∧ extract_sender_name (("Plain Name").toList) = ("Plain Name").toList := by
  refine ⟨by decide, displayMatch_decomp, ?_, ?_, ?_, by decide, by decide, by decide⟩
  · intro s A hs hm
    rw [extract_sender_name, if_neg hs, hm]
  · intro s hs hat hlt
    have hnm : '<' ∉ pyStrip s := by
      intro hmem
      have h2 : '<' ∈ s := pyStrip_subset s hmem
      have h3 : s.contains '<' = true := by simpa using h2
      rw [hlt] at h3
      exact Bool.false_ne_true h3
    rw [extract_sender_name, if_neg hs, displayMatch_none_of_no_lt _ hnm,
        if_pos (by rw [hat, hlt]; rfl)]
  · intro s hs hm hor
    rw [extract_sender_name, if_neg hs, hm, if_neg]
    rcases hor with h | h <;> rw [h] <;> simp

/-- Witness for the amended C5 at a concrete input. -/
theorem extract_sender_name_spec_witness :
    extract_sender_name (("x@y").toList) =
      (("x@y").toList).takeWhile (fun c => c ≠ '@') :=
  (extract_sender_name_spec.2.2.2.1) (("x@y").toList) (by decide) (by decide) (by decide)

theorem digitsVal_digitCharsAux :
    ∀ (fuel n : Nat), n ≤ fuel → digitsVal (digitCharsAux fuel n) = n := by
  intro fuel
  induction fuel with
  | zero =>
    intro n hn
    interval_cases n
    rfl
  | succ fuel ih =>
    intro n hn
    cases n with
    | zero => rfl
    | succ m =>
      have hd : (m + 1) / 10 ≤ fuel := by
        have := Nat.div_lt_self (Nat.succ_pos m) (by omega : 1 < 10)
        omega
      have hdig : ∀ d, d < 10 → (Nat.digitChar d).toNat - 48 = d := by decide
      have hmod : (Nat.digitChar ((m + 1) % 10)).toNat - 48 = (m + 1) % 10 :=
        hdig _ (Nat.mod_lt _ (by omega))
      simp only [digitCharsAux, digitsVal, hmod, ih _ hd]
      omega

theorem natToChars_injective : Function.Injective natToChars := by
  have key : ∀ n, digitsVal ((natToChars n).reverse) = n := by
    intro n
    unfold natToChars
    split
    · next h => rw [h]; rfl
    · rw [List.reverse_reverse]
      exact digitsVal_digitCharsAux n n le_rfl
  intro a b hab
  rw [← key a, ← key b, hab]

theorem pathFor_succ_injective (dir fname ext : List Char) (j k : Nat)
    (h : pathFor dir fname ext (j + 1) = pathFor dir fname ext (k + 1)) : j = k := by
  simp only [pathFor] at h
  have h1 := List.append_cancel_left h
  injection h1 with _ h2
  have h3 := List.append_cancel_left h2
  injection h3 with _ h4
  have h5 := List.append_cancel_right h4
  have h6 := natToChars_injective h5
  omega

theorem pathFor_exists_free (fs : List (List Char)) (dir fname ext : List Char) :
    ∃ j, j < fs.length + 1 ∧ pathFor dir fname ext (j + 1) ∉ fs := by
  by_contra hcon
  push_neg at hcon
  have hinj : Function.Injective fun j : Nat => pathFor dir fname ext (j + 1) :=
    fun a b hab => pathFor_succ_injective dir fname ext a b hab
  have hsub : (Finset.range (fs.length + 1)).image (fun j => pathFor dir fname ext (j + 1))
      ⊆ fs.toFinset := by
    intro p hp
    rw [Finset.mem_image] at hp
    obtain ⟨j, hj, rfl⟩ := hp
    rw [List.mem_toFinset]
    exact hcon j (Finset.mem_range.mp hj)
  have hcard := Finset.card_le_card hsub
  rw [Finset.card_image_of_injective _ hinj, Finset.card_range] at hcard
  have := fs.toFinset_card_le
  omega

theorem searchFrom_spec (fs : List (List Char)) (dir fname ext : List Char) :
    ∀ (fuel k : Nat), (∃ j, j < fuel ∧ pathFor dir fname ext (k + j) ∉ fs) →
      ∃ j, searchFrom fs dir fname ext fuel k = pathFor dir fname ext (k + j) ∧
        pathFor dir fname ext (k + j) ∉ fs ∧
        ∀ i < j, pathFor dir fname ext (k + i) ∈ fs := by
  intro fuel
  induction fuel with
  | zero =>
    intro k h
    obtain ⟨j, hj, _⟩ := h
    omega
  | succ fuel ih =>
    intro k h
    by_cases hk : pathFor dir fname ext k ∈ fs
    · obtain ⟨j, hj, hnot⟩ := h
      have hj0 : j ≠ 0 := by
        rintro rfl
        rw [Nat.add_zero] at hnot
        exact hnot hk
      obtain ⟨j', rfl⟩ : ∃ j', j = j' + 1 := ⟨j - 1, by omega⟩
      obtain ⟨j2, heq, hn2, hmin2⟩ := ih (k + 1)
        ⟨j', by omega, by rw [show k + 1 + j' = k + (j' + 1) by omega]; exact hnot⟩
      refine ⟨j2 + 1, ?_, ?_, ?_⟩
      · rw [searchFrom, if_pos hk, heq]
        congr 1
        omega
      · rw [show k + (j2 + 1) = k + 1 + j2 by omega]
        exact hn2
      · intro i hi
        cases i with
        | zero => rw [Nat.add_zero]; exact hk
        | succ i' =>
          rw [show k + (i' + 1) = k + 1 + i' by omega]
          exact hmin2 i' (by omega)
    · refine ⟨0, ?_, ?_, fun i hi => absurd hi (by omega)⟩
      · rw [searchFrom, if_neg hk, Nat.add_zero]
      · rw [Nat.add_zero]; exact hk

/-- C6: the unique path allocator returns the unsuffixed path when free and
otherwise the first free suffixed path in increasing counter order; the
result never collides with an existing path (hence never with a
pre-existing or previously allocated one, each allocation being recorded
in the existing set before the next); the two concrete allocations of the
claim evaluate as stated. -/
theorem generate_unique_filename_spec :
    (∀ (fs : List (List Char)) (dir fname ext : List Char),
      generate_unique_filename fs dir fname ext ∉ fs ∧
      ∃ n, generate_unique_filename fs dir fname ext = pathFor dir fname ext n ∧
        ∀ m < n, pathFor dir fname ext m ∈ fs)
    ∧ generate_unique_filename [("d/x.md").toList]
        (("d").toList) (("x").toList) ((".md").toList) = ("d/x_1.md").toList
    ∧ generate_unique_filename [("d/x.md").toList, ("d/x_1.md").toList]
        (("d").toList) (("x").toList) ((".md").toList) = ("d/x_2.md").toList := by
  refine ⟨?_, by decide, by decide⟩
  intro fs dir fname ext
  unfold generate_unique_filename
  by_cases h0 : pathFor dir fname ext 0 ∈ fs
  · rw [if_pos h0]
    obtain ⟨j, hj, hnot⟩ := pathFor_exists_free fs dir fname ext
    obtain ⟨j2, heq, hn2, hmin⟩ := searchFrom_spec fs dir fname ext (fs.length + 1) 1
      ⟨j, by omega, by rw [show 1 + j = j + 1 by omega]; exact hnot⟩
    refine ⟨heq ▸ hn2, 1 + j2, heq, ?_⟩
    intro m hm
    cases m with
    | zero => exact h0
    | succ m' =>
      rw [show m' + 1 = 1 + m' by omega]
      exact hmin m' (by omega)
  · rw [if_neg h0]
    exact ⟨h0, 0, rfl, fun m hm => absurd hm (by omega)⟩

theorem containsInOrder_cons (pre p suf : List Char) (ps : List (List Char))
    (h : containsInOrder suf ps) : containsInOrder (pre ++ (p ++ suf)) (p :: ps) :=
  ⟨pre, suf, rfl, h⟩

theorem mdDoc_contains_rows (subject sender toR ccR dateD : List Char)
    (links : List (List Char)) (bodyMd : List Char) :
    containsInOrder (mdDoc subject sender toR ccR dateD links bodyMd)
      [rowFrom, rowTo, rowCC, rowDate] := by
  have hsplit : mdDoc subject sender toR ccR dateD links bodyMd =
      (("# ".toList) ++ (subject ++ ("\n\n| Field | Value |\n|-------|-------|\n".toList))) ++
      (rowFrom ++ ((sender ++ (" |\n".toList)) ++
      (rowTo ++ ((toR ++ (" |\n".toList)) ++
      (rowCC ++ ((ccR ++ (" |\n".toList)) ++
      (rowDate ++ (dateD ++ ((" |\n\n".toList) ++
        ((if links ≠ [] then
            ("## Attachments\n\n".toList) ++ List.intercalate ['\n'] links ++ ("\n\n".toList)
          else []) ++
         (("## Content\n\n".toList) ++ bodyMd))))))))))) := by
    simp [mdDoc, List.append_assoc]
  rw [hsplit]
  exact containsInOrder_cons _ _ _ _ (containsInOrder_cons _ _ _ _
    (containsInOrder_cons _ _ _ _ (containsInOrder_cons _ _ _ _ trivial)))

/-- C1: the item renderer is total: for every mail item (including ones
whose property accessors raise) it either renders a document of the fixed
shape, whose field table carries the From, To, CC and Date rows in this
order, or (when the try body raises) returns the degraded triple: base
name "error_email", a document titled "Error Processing Email" carrying
the error description, and an empty attachments list. -/
theorem create_email_markdown_total (conv : List Char → Except (List Char) (List Char))
    (now : List Char × List Char) (m : MailItem) :
    (∃ e, renderMail conv now m = .error e ∧
      create_email_markdown conv now m =
        (("error_email").toList,
         ("# Error Processing Email\n\nError: ").toList ++ e, []))
    ∨ (∃ base doc atts, renderMail conv now m = .ok (base, doc, atts) ∧
        create_email_markdown conv now m = (base, doc, atts) ∧
        containsInOrder doc [rowFrom, rowTo, rowCC, rowDate]) := by
  cases hR : renderMail conv now m with
  | error e => exact Or.inl ⟨e, rfl, by simp [create_email_markdown, hR]⟩
  | ok val =>
    obtain ⟨base, doc, atts⟩ := val
    refine Or.inr ⟨base, doc, atts, rfl, by simp [create_email_markdown, hR], ?_⟩
    cases hS : m.Subject with
    | error e => simp [renderMail, hS] at hR
    | ok subjRaw =>
      cases hSend : senderOf m with
      | error e => simp [renderMail, hS, hSend] at hR
      | ok sender =>
        cases hRT : m.ReceivedTime with
        | error e => simp [renderMail, hS, hSend, hRT] at hR
        | ok rt =>
          cases hRec : m.Recipients with
          | error e => simp [renderMail, hS, hSend, hRT, hRec] at hR
          | ok recips =>
            simp only [renderMail, hS, hSend, hRT, hRec, Except.ok.injEq,
              Prod.mk.injEq] at hR
            obtain ⟨h1, h2, h3⟩ := hR
            rw [← h2]
            exact mdDoc_contains_rows _ _ _ _ _ _ _


theorem extractGo_append_error (a : Attachment) (e : List Char) :
    ∀ (pre : List Attachment) (i : Nat), processAtt (i + pre.length) a = .error e →
      ∀ post, extractGo i (pre ++ a :: post) = extractGo i pre := by
  intro pre
  induction pre with
  | nil =>
    intro i h post
    simp only [List.length_nil, Nat.add_zero] at h
    simp [extractGo, h]
  | cons p t ih =>
    intro i h post
    simp only [List.cons_append, extractGo]
    cases hp : processAtt i p with
    | error _ => rfl
    | ok v =>
      have ht := ih (i + 1) (by
        simp only [List.length_cons] at h
        rw [show i + 1 + t.length = i + (t.length + 1) by omega]
        exact h) post
      simp [hp, ht]

theorem except_isOk_iff {ε α : Type} (x : Except ε α) :
    x.isOk = true ↔ ∃ r, x = .ok r := by
  cases x <;> simp [Except.isOk, Except.toBool]

theorem renderMail_isOk_attachments
    (conv : List Char → Except (List Char) (List Char)) (now : List Char × List Char)
    (m : MailItem) (v : Except (List Char) (List Attachment)) :
    (renderMail conv now { m with Attachments := v }).isOk =
      (renderMail conv now m).isOk := by
  obtain ⟨f1, f2, f3, f4, f5, f6, f7, f8, f9⟩ := m
  have hs : senderOf ⟨f1, f2, f3, f4, f5, f6, f7, f8, v⟩ =
      senderOf ⟨f1, f2, f3, f4, f5, f6, f7, f8, f9⟩ := rfl
  cases f1 with
  | error e => simp [renderMail]
  | ok subjRaw =>
    cases hSend : senderOf (⟨Except.ok subjRaw, f2, f3, f4, f5, f6, f7, f8, f9⟩ : MailItem) with
    | error e => simp [renderMail, hs, hSend]
    | ok sender =>
      cases f4 with
      | error e => simp [renderMail, hs, hSend]
      | ok rt =>
        cases f5 with
        | error e => simp [renderMail, hs, hSend]
        | ok recips => simp [renderMail, hs, hSend, Except.isOk, Except.toBool]

theorem renderMail_ok_attachments_irrelevant
    (conv : List Char → Except (List Char) (List Char)) (now : List Char × List Char)
    (m : MailItem) (v : Except (List Char) (List Attachment)) :
    (∃ r, renderMail conv now m = .ok r) ↔
      ∃ r, renderMail conv now { m with Attachments := v } = .ok r := by
  rw [← except_isOk_iff, ← except_isOk_iff, renderMail_isOk_attachments conv now m v]

/-- C2 counterexample: a mail item whose first attachment extracts
successfully and whose second raises keeps the first attachment — the
rendered attachments list is not empty, the loop merely stops at the
failure. -/
theorem attachment_partial_extraction_counterexample :
    (create_email_markdown convId nowPair cexMailItem).2.2 =
      [((("a.txt").toList), [65])] ∧
    (create_email_markdown convId nowPair cexMailItem).2.2 ≠ [] := by
  constructor <;> decide

/-- C2 (amended): when extraction of one attachment raises, the attachment
loop aborts there, keeping exactly the attachments extracted before the
failure (so the list is empty only when the first attachment fails) and
dropping the rest; the item as a whole still renders successfully — the
renderer succeeds if and only if it would succeed with no attachments at
all. -/
theorem attachment_failure_keeps_earlier
    (conv : List Char → Except (List Char) (List Char)) (now : List Char × List Char)
    (m : MailItem) (pre post : List Attachment) (a : Attachment) (e : List Char)
    (hA : m.Attachments = .ok (pre ++ a :: post))
    (hfail : processAtt (1 + pre.length) a = .error e) :
    (∀ base doc atts, renderMail conv now m = .ok (base, doc, atts) →
      atts = (extractGo 1 pre).1)
    ∧ ((∃ r, renderMail conv now m = .ok r) ↔
        ∃ r, renderMail conv now { m with Attachments := .ok [] } = .ok r) := by
  refine ⟨?_, renderMail_ok_attachments_irrelevant conv now m (.ok [])⟩
  intro base doc atts hr
  have hgo : extractGo 1 (pre ++ a :: post) = extractGo 1 pre :=
    extractGo_append_error a e pre 1 hfail post
  cases hS : m.Subject with
  | error e2 => simp [renderMail, hS] at hr
  | ok subjRaw =>
    cases hSend : senderOf m with
    | error e2 => simp [renderMail, hS, hSend] at hr
    | ok sender =>
      cases hRT : m.ReceivedTime with
      | error e2 => simp [renderMail, hS, hSend, hRT] at hr
      | ok rt =>
        cases hRec : m.Recipients with
        | error e2 => simp [renderMail, hS, hSend, hRT, hRec] at hr
        | ok recips =>
          simp only [renderMail, hS, hSend, hRT, hRec, hA, extractAttachments,
            Except.ok.injEq, Prod.mk.injEq] at hr
          rw [← hr.2.2, hgo]

/-- Witness for the amended C2 at a concrete item: applying the theorem to
the two-attachment item whose second attachment fails. -/
theorem attachment_failure_keeps_earlier_witness :
    (∃ r, renderMail convId nowPair cexMailItem = .ok r) ↔
      ∃ r, renderMail convId nowPair { cexMailItem with Attachments := .ok [] } = .ok r :=
  (attachment_failure_keeps_earlier convId nowPair cexMailItem [goodAtt] [] badAtt
    (("save failed").toList) rfl rfl).2

theorem writeAtts_nil_bad (emailFolder : List Char) :
    ∀ (atts : List (List Char × List Nat)) (st : FSState),
      ∃ st', writeAtts [] emailFolder atts st = .ok st' ∧
        (∀ q ∈ st.existing, q ∈ st'.existing) ∧
        (∀ q ∈ st.files, q ∈ st'.files) ∧
        ∀ att ∈ atts, (emailFolder ++ '/' :: att.1, FileData.bytes att.2) ∈ st'.files := by
  intro atts
  induction atts with
  | nil =>
    intro st
    exact ⟨st, rfl, fun q hq => hq, fun q hq => hq, by simp⟩
  | cons att rest ih =>
    intro st
    obtain ⟨st', heq, hex, hfi, hall⟩ :=
      ih { existing := (emailFolder ++ '/' :: att.1) :: st.existing,
           files := (emailFolder ++ '/' :: att.1, FileData.bytes att.2) :: st.files }
    refine ⟨st', ?_, ?_, ?_, ?_⟩
    · simp only [writeAtts, writeBytesF, List.not_mem_nil, if_neg (fun h => h)]
      exact heq
    · intro q hq
      exact hex _ (List.mem_cons_of_mem _ hq)
    · intro q hq
      exact hfi _ (List.mem_cons_of_mem _ hq)
    · intro a ha
      rcases List.mem_cons.mp ha with h | h
      · rw [h]
        exact hfi _ (List.mem_cons_self _ _)
      · exact hall a h

/-- C9: the writing rule of the tree walker: with at least one attachment,
a fresh (not previously existing) folder name is allocated, the folder is
created, and the markdown file and every attachment are written inside it;
with no attachments, exactly one uniquely named markdown file is written
directly under the output root and nothing else changes (no directory is
created). -/
theorem process_folder_writing_rule (st : FSState)
    (outDir base content : List Char) (atts : List (List Char × List Nat)) :
    (atts ≠ [] →
      ∃ st', processItemF [] st outDir base content atts = .ok st' ∧
        generate_unique_filename st.existing outDir base [] ∉ st.existing ∧
        generate_unique_filename st.existing outDir base [] ∈ st'.existing ∧
        ((generate_unique_filename st.existing outDir base []) ++ '/' ::
            (base ++ (".md").toList), FileData.text content) ∈ st'.files ∧
        ∀ att ∈ atts, ((generate_unique_filename st.existing outDir base []) ++ '/' ::
            att.1, FileData.bytes att.2) ∈ st'.files)
    ∧ (atts = [] →
        processItemF [] st outDir base content atts =
          .ok { existing :=
                  generate_unique_filename st.existing outDir base ((".md").toList) ::
                    st.existing,
                files :=
                  (generate_unique_filename st.existing outDir base ((".md").toList),
                    FileData.text content) :: st.files } ∧
        generate_unique_filename st.existing outDir base ((".md").toList) ∉ st.existing) := by
  constructor
  · intro hne
    obtain ⟨st', heq, hex, hfi, hall⟩ := writeAtts_nil_bad
      (generate_unique_filename st.existing outDir base []) atts
      { existing := ((generate_unique_filename st.existing outDir base []) ++ '/' ::
            (base ++ (".md").toList)) ::
          generate_unique_filename st.existing outDir base [] :: st.existing,
        files := ((generate_unique_filename st.existing outDir base []) ++ '/' ::
            (base ++ (".md").toList), FileData.text content) :: st.files }
    refine ⟨st', ?_, ?_, ?_, ?_, hall⟩
    · simp only [processItemF, if_pos hne, mkdirF, writeTextF, List.not_mem_nil,
        if_neg (fun h => h)]
      exact heq
    · exact (generate_unique_filename_spec.1 st.existing outDir base []).1
    · exact hex _ (List.mem_cons_of_mem _ (List.mem_cons_self _ _))
    · exact hfi _ (List.mem_cons_self _ _)
  · intro hnil
    subst hnil
    refine ⟨?_, (generate_unique_filename_spec.1 st.existing outDir base ((".md").toList)).1⟩
    simp [processItemF, writeTextF]

/-- Witness for C9 at concrete inputs, one per branch of the writing
rule. -/
theorem process_folder_writing_rule_witness :
    (∃ st', processItemF [] ⟨[], []⟩ (("out").toList) (("m").toList) (("hi").toList)
        [((("a.txt").toList), [65])] = .ok st' ∧
      generate_unique_filename [] (("out").toList) (("m").toList) [] ∉ ([] : List (List Char)) ∧
      generate_unique_filename [] (("out").toList) (("m").toList) [] ∈ st'.existing ∧
      ((generate_unique_filename [] (("out").toList) (("m").toList) []) ++ '/' ::
          ((("m").toList) ++ (".md").toList), FileData.text (("hi").toList)) ∈ st'.files ∧
      ∀ att ∈ [((("a.txt").toList), [65])],
        ((generate_unique_filename [] (("out").toList) (("m").toList) []) ++ '/' ::
          att.1, FileData.bytes att.2) ∈ st'.files)
    ∧ processItemF [] ⟨[], []⟩ (("out").toList) (("m").toList) (("hi").toList) [] =
        .ok { existing := [generate_unique_filename [] (("out").toList) (("m").toList)
                ((".md").toList)],
              files := [(generate_unique_filename [] (("out").toList) (("m").toList)
                ((".md").toList), FileData.text (("hi").toList))] } :=
  ⟨(process_folder_writing_rule ⟨[], []⟩ (("out").toList) (("m").toList) (("hi").toList)
      [((("a.txt").toList), [65])]).1 (by decide),
   ((process_folder_writing_rule ⟨[], []⟩ (("out").toList) (("m").toList) (("hi").toList)
      []).2 rfl).1⟩

/-- C10: per-item writing is not atomic: for this concrete item the
markdown file is written, the attachment write then raises, the walker
catches the failure and does not count the item (the boolean is false),
yet the folder and the markdown file written before the failure remain in
the directory state. -/
theorem per_item_write_not_atomic :
    handleItem [("out/m/a.txt").toList] ⟨[], []⟩ (("out").toList) (("m").toList)
        (("hello").toList) [((("a.txt").toList), [65])] =
      (⟨[("out/m/m.md").toList, ("out/m").toList],
        [((("out/m/m.md").toList), FileData.text (("hello").toList))]⟩, false)
    ∧ ((("out/m/a.txt").toList), FileData.bytes [65]) ∉
        (handleItem [("out/m/a.txt").toList] ⟨[], []⟩ (("out").toList) (("m").toList)
          (("hello").toList) [((("a.txt").toList), [65])]).1.files := by
  constructor <;> decide

/-- C3 counterexample: an archive whose traversal completes 3 items and
then suffers a terminating failure is reported with processed_count 0, not
3 — the catch-all at line 332 returns a zero count, discarding the partial
progress. -/
theorem process_pst_file_partial_count_counterexample :
    process_pst_file
        { pstName := ("a.pst").toList, fileExists := true, sessionInit := .ok (),
          rootLocated := true, walk := (3, some (("COM failure").toList)) } =
      (("a.pst").toList, 0, some (("COM failure").toList))
    ∧ (process_pst_file
        { pstName := ("a.pst").toList, fileExists := true, sessionInit := .ok (),
          rootLocated := true, walk := (3, some (("COM failure").toList)) }).2.1 ≠ 3 := by
  constructor <;> decide

/-- C3 (amended): whenever the archive result carries an error, its
processed_count is 0 — a failure terminating the session after partial
processing discards the partial count; the count in the result equals the
walk count only on a fully successful run. -/
theorem process_pst_file_error_zero_count (env : ArchiveEnv) :
    ((process_pst_file env).2.2 ≠ none → (process_pst_file env).2.1 = 0)
    ∧ (env.fileExists = true → env.sessionInit = .ok () → env.rootLocated = true →
        env.walk.2 = none →
        process_pst_file env = (env.pstName, env.walk.1, none)) := by
  constructor
  · intro herr
    unfold process_pst_file at herr ⊢
    by_cases hex : env.fileExists = true
    · rw [if_pos hex] at herr ⊢
      cases hb : pstBody env with
      | error e => simp [hb]
      | ok r =>
        have hb2 : pstBody env = Except.ok r := hb
        rw [hb2] at herr
        dsimp only at herr ⊢
        unfold pstBody at hb
        cases hsi : env.sessionInit with
        | error e => rw [hsi] at hb; simp at hb
        | ok u =>
          rw [hsi] at hb
          dsimp only at hb
          split at hb
          · cases hw : env.walk.2 with
            | some e => rw [hw] at hb; simp at hb
            | none =>
              rw [hw] at hb
              simp only [Except.ok.injEq] at hb
              rw [← hb] at herr
              simp at herr
          · simp only [Except.ok.injEq] at hb
            rw [← hb]
    · rw [if_neg hex] at herr ⊢
  · intro hex hsi hroot hw
    unfold process_pst_file pstBody
    rw [hex, if_pos rfl, hsi, if_pos hroot, hw]

/-- Witness for the amended C3 at a concrete environment: a failing run
reports zero, a clean run reports the walk count. -/
theorem process_pst_file_error_zero_count_witness :
    ((process_pst_file
        { pstName := ("a.pst").toList, fileExists := true, sessionInit := .ok (),
          rootLocated := true, walk := (3, some (("boom").toList)) }).2.2 ≠ none →
      (process_pst_file
        { pstName := ("a.pst").toList, fileExists := true, sessionInit := .ok (),
          rootLocated := true, walk := (3, some (("boom").toList)) }).2.1 = 0)
    ∧ process_pst_file
        { pstName := ("b.pst").toList, fileExists := true, sessionInit := .ok (),
          rootLocated := true, walk := (5, none) } =
        (("b.pst").toList, 5, none) :=
  ⟨(process_pst_file_error_zero_count _).1,
   (process_pst_file_error_zero_count
      { pstName := ("b.pst").toList, fileExists := true, sessionInit := .ok (),
        rootLocated := true, walk := (5, none) }).2 rfl rfl rfl rfl⟩

/-- C4 counterexample: a requested worker count of 0 with two inputs gives
an effective count of 0, not 1 — line 383 applies no lower clamp, so the
claimed minimum of 1 does not hold. -/
theorem effective_workers_zero_counterexample :
    effective_workers 0 2 = 0 ∧ effective_workers 0 2 ≠ 1 ∧
    ¬(1 ≤ effective_workers 0 2) := by
  refine ⟨?_, ?_, ?_⟩ <;> decide

/-- C4 (amended): the effective worker count is min(requested, inputs)
with no lower clamp: it is at least 1 exactly when at least one worker is
requested (and the input list is nonempty); a requested count of 0 or less
propagates unchanged through the min and the pool creation fails rather
than running with one worker. -/
theorem effective_workers_spec (w : Int) (n : Nat) :
    (1 ≤ w → 1 ≤ n → effective_workers w n = min w (n : Int) ∧
      1 ≤ effective_workers w n)
    ∧ (w ≤ 0 → effective_workers w n ≤ 0) := by
  constructor
  · intro hw hn
    refine ⟨rfl, ?_⟩
    unfold effective_workers
    rw [le_min_iff]
    exact ⟨hw, by exact_mod_cast hn⟩
  · intro hw
    unfold effective_workers
    exact le_trans (min_le_left _ _) hw

/-- Witness for the amended C4 at concrete counts. -/
theorem effective_workers_spec_witness :
    (effective_workers 3 2 = min 3 (2 : Int) ∧ 1 ≤ effective_workers 3 2)
    ∧ effective_workers (-1) 2 ≤ 0 :=
  ⟨(effective_workers_spec 3 2).1 (by decide) (by decide),
   (effective_workers_spec (-1) 2).2 (by decide)⟩
